import Mathlib

/-!
Verification of the Leadspicker n8n community node (n8n-nodes-leadspicker).

This file gives a shallow embedding of the repository's core algorithms:

* the response flattener `flattenLeadPayload` together with its helpers
  `isAttributeValueObject`, `hasMeaningfulValue` and the `contact_data` /
  `person_data` merge (nodes/Leadspicker/Leadspicker.node.ts);
* the blacklist identifier categorizer `categorizeBlacklistEntries`;
* the lead payload builder `buildLeadPayload`;
* the retrying HTTP request wrapper `leadspickerApiRequest` with its
  rate-limit helpers `toNumber` / `shouldThrottle` (tests/updateLead.test.ts,
  which carries the GenericFunctions implementation);
* the cursor-based pagination loop of the searchPostReactors operation and
  the chunk extraction used by the page / offset list loops;
* the trigger node's `flattenPerson` (LeadspickerTrigger).

JavaScript runtime values flowing through these functions are modelled by the
inductive type `JVal`: JSON scalars, arrays and objects, plus `undef` for the
JavaScript `undefined` value.  Objects are association lists in insertion
order, mirroring JavaScript object key iteration order for the string keys
used here.  JSON numbers are modelled as integers; every numeric literal the
claims touch is an integer.
-/

namespace LeadspickerSpec

/-- JavaScript/JSON runtime value: null, undefined, booleans, (integer)
numbers, strings, arrays, and objects as insertion-ordered key/value lists. -/
inductive JVal where
  | null : JVal
  | undef : JVal
  | bool : Bool → JVal
  | num : Int → JVal
  | str : String → JVal
  | arr : List JVal → JVal
  | obj : List (String × JVal) → JVal

abbrev Fields := List (String × JVal)

/-- First-match lookup of a key in an object's field list; `none` models a
JavaScript property read returning `undefined`. -/
def lookupField (l : Fields) (k : String) : Option JVal :=
  match l with
  | [] => none
  | (k', v) :: rest => if k' = k then some v else lookupField rest k

/-- JavaScript property assignment `o[k] = v`: replaces the value in place if
the key exists, otherwise appends the key at the end. -/
def setField (l : Fields) (k : String) (v : JVal) : Fields :=
  match l with
  | [] => [(k, v)]
  | (k', v') :: rest => if k' = k then (k, v) :: rest else (k', v') :: setField rest k v

/-- JavaScript `delete o[k]`. -/
def removeField (l : Fields) (k : String) : Fields :=
  l.filter (fun kv => kv.1 ≠ k)

/-- `Object.prototype.hasOwnProperty.call(o, k)`. -/
def hasKey (l : Fields) (k : String) : Bool :=
  match l with
  | [] => false
  | (k', _) :: rest => k' = k || hasKey rest k

/-- `isPlainObject` from GenericFunctions:
`typeof value === 'object' && value !== null && !Array.isArray(value)`. -/
def isPlainObject : JVal → Bool
  | .obj _ => true
  | _ => false

/-! Character-level string helpers.  These model the JavaScript string
operations the source uses (`trim`, `split`, `includes`, `toLowerCase`,
`Number(...)`) structurally over `String.data`, so that closed terms reduce
inside the kernel. -/

/-- `s.trim()` on the character list: drop leading and trailing whitespace. -/
def trimChars (l : List Char) : List Char :=
  ((l.dropWhile Char.isWhitespace).reverse.dropWhile Char.isWhitespace).reverse

/-- `s.trim() !== ''` for a JavaScript string. -/
def jsTrimNonempty (s : String) : Bool :=
  !(trimChars s.data).isEmpty

/-- `hasMeaningfulValue` (Leadspicker.node.ts): false for `undefined`/`null`,
false for empty or all-whitespace strings, true otherwise.  The argument is
the result of a property read, so `none` is the absent/`undefined` case. -/
def hasMeaningfulValue : Option JVal → Bool
  | none => false
  | some .undef => false
  | some .null => false
  | some (.str s) => jsTrimNonempty s
  | some _ => true

/-- The metadata keys an attribute-value wrapper may carry. -/
def allowedAttrKeys : List String :=
  ["value", "created", "id", "enrichment_status", "validation_status"]

/-- `isAttributeValueObject` (Leadspicker.node.ts): a plain object that owns
key `value` and whose keys are all drawn from `allowedAttrKeys`. -/
def isAttributeValueObject (l : Fields) : Bool :=
  hasKey l "value" && l.all (fun kv => allowedAttrKeys.contains kv.1)

/-- One step of the `contact_data`/`person_data` merge loop body: copy the
nested field into the clone only when the clone does not already hold a
meaningful value for that key. -/
def assignIfNotMeaningful (clone : Fields) (kv : String × JVal) : Fields :=
  if hasMeaningfulValue (lookupField clone kv.1) then clone else setField clone kv.1 kv.2

/-- The merge of one nested-detail key (`contact_data` or `person_data`):
if the key holds a plain object, fold its entries into the clone with
`assignIfNotMeaningful` and then delete the key; otherwise leave the clone
unchanged (the source deletes the key only inside the isPlainObject guard). -/
def mergeDetail (clone : Fields) (key : String) : Fields :=
  match lookupField clone key with
  | some (.obj detail) => removeField (detail.foldl assignIfNotMeaningful clone) key
  | _ => clone

/-! Size lemmas used to justify the flattener's recursion. -/

theorem sizeOf_lookupField {l : Fields} {k : String} {v : JVal}
    (h : lookupField l k = some v) : sizeOf v < sizeOf l := by
  induction l with
  | nil => simp [lookupField] at h
  | cons kv rest ih =>
    obtain ⟨k', v'⟩ := kv
    by_cases hk : k' = k
    · simp [lookupField, hk] at h
      subst h
      simp
      omega
    · simp [lookupField, hk] at h
      have := ih h
      simp
      omega

theorem sizeOf_mem_fields {l : Fields} {kv : String × JVal}
    (h : kv ∈ l) : sizeOf kv.2 < sizeOf l := by
  induction l with
  | nil => cases h
  | cons hd rest ih =>
    rcases List.mem_cons.mp h with h | h
    · subst h
      obtain ⟨k', v'⟩ := kv
      simp
      omega
    · have := ih h
      simp
      omega

theorem sizeOf_mem_list {xs : List JVal} {x : JVal}
    (h : x ∈ xs) : sizeOf x < sizeOf xs := by
  induction xs with
  | nil => cases h
  | cons hd rest ih =>
    rcases List.mem_cons.mp h with h | h
    · subst h; simp; omega
    · have := ih h
      simp
      omega

theorem sizeOf_setField (l : Fields) (k : String) (v : JVal) :
    sizeOf (setField l k v) ≤ sizeOf l + 2 + sizeOf k + sizeOf v := by
  induction l with
  | nil => simp [setField]; omega
  | cons kv rest ih =>
    obtain ⟨k', v'⟩ := kv
    by_cases hk : k' = k
    · subst hk
      simp [setField]
      omega
    · simp [setField, hk]
      omega

theorem sizeOf_assignIfNotMeaningful (l : Fields) (kv : String × JVal) :
    sizeOf (assignIfNotMeaningful l kv) ≤ sizeOf l + 2 + sizeOf kv.1 + sizeOf kv.2 := by
  unfold assignIfNotMeaningful
  by_cases h : hasMeaningfulValue (lookupField l kv.1)
  · simp [h]; omega
  · simp [h]
    exact sizeOf_setField l kv.1 kv.2

theorem sizeOf_foldl_assign (d : List (String × JVal)) (l : Fields) :
    sizeOf (d.foldl assignIfNotMeaningful l) + 1 ≤ sizeOf l + sizeOf d := by
  induction d generalizing l with
  | nil => simp
  | cons kv rest ih =>
    obtain ⟨k, v⟩ := kv
    have h1 := sizeOf_assignIfNotMeaningful l (k, v)
    have h2 := ih (assignIfNotMeaningful l (k, v))
    simp [List.foldl] at h2 ⊢
    simp at h1
    omega

theorem sizeOf_filter_le (l : Fields) (p : String × JVal → Bool) :
    sizeOf (l.filter p) ≤ sizeOf l := by
  induction l with
  | nil => simp
  | cons kv rest ih =>
    by_cases h : p kv
    · simp [List.filter, h]
      omega
    · simp [List.filter, h]
      simp at ih ⊢
      omega

theorem sizeOf_removeField {l : Fields} {k : String} {w : JVal}
    (h : lookupField l k = some w) :
    sizeOf (removeField l k) + sizeOf w + sizeOf k + 2 ≤ sizeOf l := by
  induction l with
  | nil => simp [lookupField] at h
  | cons kv rest ih =>
    obtain ⟨k', v'⟩ := kv
    by_cases hk : k' = k
    · subst hk
      simp [lookupField] at h
      subst h
      have := sizeOf_filter_le rest (fun kv => kv.1 ≠ k')
      simp [removeField, List.filter]
      simp [removeField] at this
      omega
    · simp [lookupField, hk] at h
      have := ih h
      simp [removeField, List.filter, hk] at this ⊢
      omega

theorem lookupField_setField_ne (l : Fields) (k k' : String) (v : JVal)
    (h : k ≠ k') : lookupField (setField l k v) k' = lookupField l k' := by
  induction l with
  | nil => simp [setField, lookupField, h]
  | cons kv rest ih =>
    obtain ⟨k0, v0⟩ := kv
    by_cases hk : k0 = k
    · subst hk
      simp [setField, lookupField, h]
    · simp [setField, hk, lookupField]
      by_cases hk' : k0 = k'
      · simp [hk']
      · simp [hk', ih]

theorem lookupField_assign_preserves {l : Fields} {key : String} {d : Fields}
    (h : lookupField l key = some (.obj d)) (kv : String × JVal) :
    lookupField (assignIfNotMeaningful l kv) key = some (.obj d) := by
  unfold assignIfNotMeaningful
  by_cases hk : kv.1 = key
  · subst hk
    simp [h, hasMeaningfulValue]
  · by_cases hm : hasMeaningfulValue (lookupField l kv.1)
    · simp [hm, h]
    · simp [hm, lookupField_setField_ne l kv.1 key kv.2 hk, h]

theorem lookupField_foldl_assign_preserves {l : Fields} {key : String} {d : Fields}
    (h : lookupField l key = some (.obj d)) (entries : Fields) :
    lookupField (entries.foldl assignIfNotMeaningful l) key = some (.obj d) := by
  induction entries generalizing l with
  | nil => simpa using h
  | cons kv rest ih =>
    simp [List.foldl]
    exact ih (lookupField_assign_preserves h kv)

theorem sizeOf_mergeDetail (l : Fields) (key : String) :
    sizeOf (mergeDetail l key) ≤ sizeOf l := by
  unfold mergeDetail
  cases hl : lookupField l key with
  | none => simp
  | some v =>
    cases v with
    | obj d =>
      simp only
      have hfold := sizeOf_foldl_assign d l
      have hpres := lookupField_foldl_assign_preserves hl d
      have hrem := sizeOf_removeField hpres
      simp at hrem
      omega
    | null => simp
    | undef => simp
    | bool b => simp
    | num n => simp
    | str s => simp
    | arr xs => simp

theorem hasKey_lookupField {l : Fields} {k : String}
    (h : hasKey l k = true) : ∃ v, lookupField l k = some v := by
  induction l with
  | nil => simp [hasKey] at h
  | cons kv rest ih =>
    obtain ⟨k', v'⟩ := kv
    by_cases hk : k' = k
    · exact ⟨v', by simp [lookupField, hk]⟩
    · simp [hasKey, hk] at h
      obtain ⟨v, hv⟩ := ih h
      exact ⟨v, by simp [lookupField, hk, hv]⟩

/-- Does the final normalization loop recurse into this value?
(`Array.isArray(value) || isPlainObject(value)`). -/
def isContainer : JVal → Bool
  | .arr _ => true
  | .obj _ => true
  | _ => false

theorem sizeOf_arr_elem {xs : List JVal} {x : JVal} (h : x ∈ xs) :
    sizeOf x < sizeOf (JVal.arr xs) := by
  have := sizeOf_mem_list h
  simp
  omega

theorem sizeOf_attr_value {fields : Fields}
    (h : isAttributeValueObject fields = true) :
    sizeOf ((lookupField fields "value").getD .null) < sizeOf (JVal.obj fields) := by
  have hv : hasKey fields "value" = true := by
    have := h
    simp [isAttributeValueObject] at this
    exact this.1
  obtain ⟨w, hw⟩ := hasKey_lookupField hv
  have := sizeOf_lookupField hw
  simp [hw]
  omega

theorem sizeOf_merged_lt {fields : Fields} {kv : String × JVal}
    (h : kv ∈ mergeDetail (mergeDetail fields "contact_data") "person_data") :
    sizeOf kv.2 < sizeOf (JVal.obj fields) := by
  have h1 := sizeOf_mem_fields h
  have h2 := sizeOf_mergeDetail (mergeDetail fields "contact_data") "person_data"
  have h3 := sizeOf_mergeDetail fields "contact_data"
  simp
  omega

/-- `flattenLeadPayload` (Leadspicker.node.ts lines 193-237):
arrays are flattened elementwise; non-objects are returned unchanged;
attribute-value wrapper objects are replaced by the flattening of their
`value` field; any other plain object is cloned, has `contact_data` and then
`person_data` merged in (each field copied only where the clone lacks a
meaningful value, the detail key deleted afterwards), and finally every
remaining field holding an array or object is flattened recursively. -/
def flattenLeadPayload (v : JVal) : JVal :=
  match v with
  | .arr xs => .arr (xs.attach.map (fun x => flattenLeadPayload x.val))
  | .obj fields =>
    if isAttributeValueObject fields then
      flattenLeadPayload ((lookupField fields "value").getD .null)
    else
      let merged := mergeDetail (mergeDetail fields "contact_data") "person_data"
      .obj (merged.attach.map (fun kv =>
        (kv.val.1, if isContainer kv.val.2 then flattenLeadPayload kv.val.2 else kv.val.2)))
  | x => x
termination_by sizeOf v
decreasing_by
  · exact sizeOf_arr_elem x.property
  · exact sizeOf_attr_value (by assumption)
  · exact sizeOf_merged_lt kv.property

/-- The two-stage merge the flattener applies to a plain (non-wrapper)
object: `contact_data` first, then `person_data`. -/
def mergePhase (fields : Fields) : Fields :=
  mergeDetail (mergeDetail fields "contact_data") "person_data"

/-! Unfolding equations for `flattenLeadPayload`, one per source branch. -/

theorem flatten_scalar (v : JVal) (h : isContainer v = false) :
    flattenLeadPayload v = v := by
  cases v <;> simp [flattenLeadPayload] <;> simp [isContainer] at h

theorem flatten_arr (xs : List JVal) :
    flattenLeadPayload (.arr xs) = .arr (xs.map flattenLeadPayload) := by
  rw [flattenLeadPayload]
  rw [List.attach_map_val]

theorem flatten_obj_plain (fields : Fields)
    (h : isAttributeValueObject fields = false) :
    flattenLeadPayload (.obj fields) =
      .obj ((mergePhase fields).map
        (fun kv => (kv.1, if isContainer kv.2 then flattenLeadPayload kv.2 else kv.2))) := by
  rw [flattenLeadPayload]
  simp only [h, Bool.false_eq_true, if_false]
  rw [List.attach_map_val (mergeDetail (mergeDetail fields "contact_data") "person_data")
    (fun kv => (kv.1, if isContainer kv.2 then flattenLeadPayload kv.2 else kv.2))]
  rfl

theorem flatten_obj_attr (fields : Fields)
    (h : isAttributeValueObject fields = true) :
    flattenLeadPayload (.obj fields) =
      flattenLeadPayload ((lookupField fields "value").getD .null) := by
  rw [flattenLeadPayload]
  simp [h]

/-- Does `fields` hold a plain object under `key`?  (The guard of the
nested-detail merge step.) -/
def isDetailObj (fields : Fields) (key : String) : Bool :=
  match lookupField fields key with
  | some (.obj _) => true
  | _ => false

theorem mergeDetail_not_obj {fields : Fields} {key : String}
    (h : isDetailObj fields key = false) : mergeDetail fields key = fields := by
  unfold mergeDetail
  unfold isDetailObj at h
  cases hl : lookupField fields key with
  | none => simp
  | some v => cases v <;> simp_all

theorem sizeOf_obj_field {fields : Fields} {kv : String × JVal}
    (h : kv ∈ fields) : sizeOf kv.2 < sizeOf (JVal.obj fields) := by
  have := sizeOf_mem_fields h
  simp
  omega

/-- A value is "already flat" when no object anywhere inside it is an
attribute-value wrapper and no object holds `contact_data` or `person_data`
as a plain object. -/
def FlatVal (v : JVal) : Bool :=
  match v with
  | .arr xs => (xs.attach.map (fun x => FlatVal x.val)).all (fun b => b)
  | .obj fields =>
      !isAttributeValueObject fields &&
      !isDetailObj fields "contact_data" &&
      !isDetailObj fields "person_data" &&
      (fields.attach.map (fun kv => FlatVal kv.val.2)).all (fun b => b)
  | _ => true
termination_by sizeOf v
decreasing_by
  · exact sizeOf_arr_elem x.property
  · exact sizeOf_obj_field kv.property

theorem FlatVal_arr (xs : List JVal) :
    FlatVal (.arr xs) = (xs.map FlatVal).all (fun b => b) := by
  rw [FlatVal]
  rw [List.attach_map_val]

theorem FlatVal_obj (fields : Fields) :
    FlatVal (.obj fields) =
      (!isAttributeValueObject fields &&
       !isDetailObj fields "contact_data" &&
       !isDetailObj fields "person_data" &&
       (fields.map (fun kv => FlatVal kv.2)).all (fun b => b)) := by
  rw [FlatVal]
  rw [List.attach_map_val fields (fun kv => FlatVal kv.2)]

theorem sizeOf_jval_pos (v : JVal) : 0 < sizeOf v := by
  cases v <;> simp

/-- Flattening an already-flat value is a no-op. -/
theorem flatten_flat_aux : ∀ (n : Nat) (v : JVal), sizeOf v ≤ n →
    FlatVal v = true → flattenLeadPayload v = v := by
  intro n
  induction n with
  | zero =>
    intro v hv
    have := sizeOf_jval_pos v
    omega
  | succ n ih =>
    intro v hv hflat
    cases v with
    | arr xs =>
      rw [flatten_arr]
      rw [FlatVal_arr] at hflat
      have hall : ∀ x ∈ xs, FlatVal x = true := by
        intro x hx
        have := List.all_eq_true.mp hflat (FlatVal x) (List.mem_map_of_mem FlatVal hx)
        simpa using this
      have hmap : ∀ x ∈ xs, flattenLeadPayload x = x := by
        intro x hx
        have hsz := sizeOf_arr_elem hx
        exact ih x (by omega) (hall x hx)
      congr 1
      calc xs.map flattenLeadPayload = xs.map id := List.map_congr_left hmap
        _ = xs := List.map_id xs
    | obj fields =>
      rw [FlatVal_obj] at hflat
      simp only [Bool.and_eq_true, Bool.not_eq_true'] at hflat
      obtain ⟨⟨⟨hattr, hcd⟩, hpd⟩, hrest⟩ := hflat
      rw [flatten_obj_plain _ hattr]
      unfold mergePhase
      rw [mergeDetail_not_obj hcd, mergeDetail_not_obj hpd]
      congr 1
      have hv2 : sizeOf fields ≤ n := by
        simp at hv
        omega
      have hmap : ∀ kv ∈ fields, ((fun kv => (kv.1, if isContainer kv.2 then flattenLeadPayload kv.2 else kv.2)) kv) = id kv := by
        intro kv hkv
        obtain ⟨k, w⟩ := kv
        have hf : FlatVal w = true := by
          have := List.all_eq_true.mp hrest (FlatVal w)
            (List.mem_map_of_mem (fun kv => FlatVal kv.2) hkv)
          simpa using this
        have hsz : sizeOf w < sizeOf fields := by
          have := sizeOf_mem_fields hkv
          simpa using this
        by_cases hc : isContainer w
        · simp [hc, ih w (by omega) hf]
        · simp [hc]
      calc fields.map (fun kv => (kv.1, if isContainer kv.2 then flattenLeadPayload kv.2 else kv.2))
            = fields.map id := List.map_congr_left hmap
        _ = fields := List.map_id fields
    | null => exact flatten_scalar _ (by rfl)
    | undef => exact flatten_scalar _ (by rfl)
    | bool b => exact flatten_scalar _ (by rfl)
    | num m => exact flatten_scalar _ (by rfl)
    | str s => exact flatten_scalar _ (by rfl)

theorem flatten_flat (v : JVal) (h : FlatVal v = true) :
    flattenLeadPayload v = v :=
  flatten_flat_aux (sizeOf v) v (Nat.le_refl _) h

/-! Lookup-level characterization of the nested-detail merge. -/

theorem lookupField_setField_eq (l : Fields) (k : String) (v : JVal) :
    lookupField (setField l k v) k = some v := by
  induction l with
  | nil => simp [setField, lookupField]
  | cons kv rest ih =>
    obtain ⟨k0, v0⟩ := kv
    by_cases hk : k0 = k
    · simp [setField, hk, lookupField]
    · simp [setField, hk, lookupField, ih]

theorem mem_of_lookupField {l : Fields} {k : String} {v : JVal}
    (h : lookupField l k = some v) : (k, v) ∈ l := by
  induction l with
  | nil => simp [lookupField] at h
  | cons kv rest ih =>
    obtain ⟨k0, v0⟩ := kv
    by_cases hk : k0 = k
    · subst hk
      simp [lookupField] at h
      simp [h]
    · simp [lookupField, hk] at h
      exact List.mem_cons_of_mem _ (ih h)

theorem lookupField_removeField (l : Fields) (key k : String) :
    lookupField (removeField l key) k =
      if key = k then none else lookupField l k := by
  induction l with
  | nil => simp [removeField, lookupField]
  | cons kv rest ih =>
    obtain ⟨k0, v0⟩ := kv
    by_cases hk : k0 = key
    · subst hk
      simp [removeField, List.filter, lookupField] at ih ⊢
      by_cases hkk : k0 = k
      · subst hkk
        simp [ih]
      · simp [hkk, ih]
    · simp [removeField, List.filter, hk, lookupField] at ih ⊢
      by_cases hkk : k0 = k
      · subst hkk
        have : ¬(key = k0) := fun h => hk h.symm
        simp [this]
      · simp [hkk, ih]

theorem lookupField_assign_ne {l : Fields} {k0 k : String} {v0 : JVal}
    (h : k0 ≠ k) :
    lookupField (assignIfNotMeaningful l (k0, v0)) k = lookupField l k := by
  unfold assignIfNotMeaningful
  by_cases hm : hasMeaningfulValue (lookupField l k0)
  · simp [hm]
  · simp [hm, lookupField_setField_ne l k0 k v0 h]

/-- The per-key effect of merging one nested-detail object into a parent:
if the detail has the key and the parent lacks a meaningful value there, the
detail's value is taken; otherwise the parent's value survives. -/
def mergeStepLookup (parent dv : Option JVal) : Option JVal :=
  match dv with
  | some v => if hasMeaningfulValue parent then parent else some v
  | none => parent

theorem mergeStepLookup_meaningful {parent : Option JVal} (dv : Option JVal)
    (h : hasMeaningfulValue parent = true) :
    mergeStepLookup parent dv = parent := by
  cases dv <;> simp [mergeStepLookup, h]

theorem lookupField_foldl_assign {d : Fields} {l : Fields} {k : String}
    (hnd : (d.map Prod.fst).Nodup) :
    lookupField (d.foldl assignIfNotMeaningful l) k =
      mergeStepLookup (lookupField l k) (lookupField d k) := by
  induction d generalizing l with
  | nil => simp [mergeStepLookup, lookupField]
  | cons kv rest ih =>
    obtain ⟨k0, v0⟩ := kv
    simp at hnd
    obtain ⟨hk0, hrest⟩ := hnd
    by_cases hk : k0 = k
    · subst hk
      have hnotin : lookupField rest k0 = none := by
        cases hl : lookupField rest k0 with
        | none => rfl
        | some w =>
          exact absurd (List.mem_map_of_mem Prod.fst (mem_of_lookupField hl)) (by simpa using hk0)
      rw [List.foldl_cons, ih hrest, hnotin]
      unfold assignIfNotMeaningful
      by_cases hm : hasMeaningfulValue (lookupField l k0)
      · simp [hm, mergeStepLookup, lookupField]
      · simp [hm, mergeStepLookup, lookupField, lookupField_setField_eq]
    · rw [List.foldl_cons, ih hrest]
      rw [@lookupField_assign_ne l k0 k v0 hk]
      simp [lookupField, hk]

theorem lookupField_mergeDetail {l : Fields} {key : String} {d : Fields}
    (hd : lookupField l key = some (.obj d))
    (hnd : (d.map Prod.fst).Nodup) (k : String) :
    lookupField (mergeDetail l key) k =
      if key = k then none
      else mergeStepLookup (lookupField l k) (lookupField d k) := by
  unfold mergeDetail
  rw [hd]
  rw [lookupField_removeField]
  by_cases hk : key = k
  · simp [hk]
  · simp [hk, lookupField_foldl_assign hnd]

theorem lookupField_map_vals (l : Fields) (f : JVal → JVal) (k : String) :
    lookupField (l.map (fun kv => (kv.1, f kv.2))) k =
      (lookupField l k).map f := by
  induction l with
  | nil => simp [lookupField]
  | cons kv rest ih =>
    obtain ⟨k0, v0⟩ := kv
    by_cases hk : k0 = k
    · simp [lookupField, hk]
    · simp [lookupField, hk, ih]

/-- The presence of a `contact_data` or `person_data` field rules out the
attribute-wrapper shape, whose keys must all be metadata keys. -/
theorem attr_false_of_detail {l : Fields} {key : String} {v : JVal}
    (hmem : lookupField l key = some v)
    (hkey : allowedAttrKeys.contains key = false) :
    isAttributeValueObject l = false := by
  unfold isAttributeValueObject
  have hm := mem_of_lookupField hmem
  cases hall : l.all (fun kv => allowedAttrKeys.contains kv.1) with
  | false => simp
  | true =>
    have := List.all_eq_true.mp hall _ hm
    simp at this
    exact absurd this (by simpa using hkey)

/-- The post-merge value normalization applied to every remaining field. -/
def flattenEntry (v : JVal) : JVal :=
  if isContainer v then flattenLeadPayload v else v

theorem flatten_obj_plain2 (fields : Fields)
    (h : isAttributeValueObject fields = false) :
    flattenLeadPayload (.obj fields) =
      .obj ((mergePhase fields).map (fun kv => (kv.1, flattenEntry kv.2))) :=
  flatten_obj_plain fields h

/-! The trigger node's person normalization (LeadspickerTrigger,
`flattenPerson`): copy the `person_data` sub-object into a fresh record, then
copy every top-level field except `person_data` over it.  Non-objects yield
`undefined` (here `none`).  No recursion, no `contact_data` handling, no
attribute-wrapper unwrapping. -/
def flattenPerson (person : JVal) : Option Fields :=
  match person with
  | .obj fields =>
      let base : Fields :=
        match lookupField fields "person_data" with
        | some (.obj details) => details.foldl (fun acc kv => setField acc kv.1 kv.2) []
        | _ => []
      some (fields.foldl
        (fun acc kv => if kv.1 = "person_data" then acc else setField acc kv.1 kv.2) base)
  | _ => none

/-! String search helpers for the identifier categorizer, modelling the
JavaScript `includes` / `toLowerCase` calls over `String.data`. -/

/-- Is `pat` a prefix of `hay` (as character lists)? -/
def startsWithChars : List Char → List Char → Bool
  | _, [] => true
  | [], _ :: _ => false
  | c :: cs, p :: ps => c = p && startsWithChars cs ps

/-- Does `hay` contain `pat` as a contiguous substring? -/
def containsChars : List Char → List Char → Bool
  | [], pat => pat.isEmpty
  | c :: rest, pat => startsWithChars (c :: rest) pat || containsChars rest pat

/-- JavaScript `s.includes(pat)`. -/
def jsIncludes (s pat : String) : Bool :=
  containsChars s.data pat.data

/-- JavaScript `s.toLowerCase()` (ASCII case folding suffices for the
patterns matched here). -/
def jsToLower (s : String) : String :=
  ⟨s.data.map Char.toLower⟩

/-- The four blacklist buckets built by `categorizeBlacklistEntries`. -/
structure BlacklistBuckets where
  emails : List String
  linkedins : List String
  company_linkedins : List String
  domains : List String
deriving DecidableEq

/-- One iteration of the categorizer loop (Leadspicker.node.ts lines
249-276): match the entry against '@', the company/school LinkedIn patterns
on a lower-cased copy, then any LinkedIn path, falling through to domains;
the original-case entry is pushed onto exactly one bucket. -/
def categorizeStep (b : BlacklistBuckets) (entry : String) : BlacklistBuckets :=
  let normalized := jsToLower entry
  if containsChars entry.data ['@'] then
    { b with emails := b.emails ++ [entry] }
  else if jsIncludes normalized "linkedin.com/company" ||
      jsIncludes normalized "linkedin.com/school" then
    { b with company_linkedins := b.company_linkedins ++ [entry] }
  else if jsIncludes normalized "linkedin.com/" then
    { b with linkedins := b.linkedins ++ [entry] }
  else
    { b with domains := b.domains ++ [entry] }

/-- `categorizeBlacklistEntries`: fold the step over the entries in order,
starting from four empty buckets. -/
def categorizeBlacklistEntries (entries : List String) : BlacklistBuckets :=
  entries.foldl categorizeStep ⟨[], [], [], []⟩

/-! The resilient request wrapper (tests/updateLead.test.ts lines 112-245):
`toNumber`, `shouldThrottle` and the retry loop of `leadspickerApiRequest`. -/

/-- A response header value: a single string or a repeated (list) header. -/
inductive HeaderVal where
  | str : String → HeaderVal
  | list : List String → HeaderVal

abbrev Headers := List (String × HeaderVal)

def lookupHeader : Headers → String → Option HeaderVal
  | [], _ => none
  | (k, v) :: rest, key => if k = key then some v else lookupHeader rest key

/-- Accumulator loop for parsing an all-digit string. -/
def digitsToNatAux : List Char → Nat → Option Nat
  | [], acc => some acc
  | c :: rest, acc =>
      if c.isDigit then digitsToNatAux rest (acc * 10 + (c.toNat - 48)) else none

/-- Parse a nonempty all-digit character list. -/
def digitsToNat : List Char → Option Nat
  | [] => none
  | c :: rest => digitsToNatAux (c :: rest) 0

/-- JavaScript `Number(s)` on the integer fragment of the wire contract
(the rate-limit headers carry integers as strings): surrounding whitespace is
trimmed, the empty/all-whitespace string coerces to `0`, an optionally signed
digit string to its value, and anything else to NaN (`none`).  Fractional,
hexadecimal and exponent literals are outside the modelled fragment. -/
def jsStrToNum (s : String) : Option Int :=
  match trimChars s.data with
  | [] => some 0
  | '-' :: rest => (digitsToNat rest).map (fun n => -(n : Int))
  | '+' :: rest => (digitsToNat rest).map (fun n => (n : Int))
  | t => (digitsToNat t).map (fun n => (n : Int))

/-- `toNumber` (updateLead.test.ts lines 129-135): take the first element of
a repeated header, coerce with `Number(...)`, and return `undefined` for NaN
(and for a missing value, since `Number(undefined)` is NaN). -/
def toNumber : Option HeaderVal → Option Int
  | some (.str s) => jsStrToNum s
  | some (.list l) =>
      match l with
      | [] => none
      | s :: _ => jsStrToNum s
  | none => none

def RATE_LIMIT_THRESHOLD : Int := 10
def THROTTLE_DELAY_MS : Nat := 1000
def RETRY_DELAY_MS : Nat := 10000
def MAX_RETRIES : Nat := 6

/-- `shouldThrottle` (updateLead.test.ts lines 137-156): throttle when either
remaining-rate header is present and strictly below the threshold. -/
def shouldThrottle (headers : Headers) : Bool :=
  let remainingMinute := toNumber (lookupHeader headers "x-ratelimit-remaining-minute")
  let remainingDay := toNumber (lookupHeader headers "x-ratelimit-remaining-day")
  remainingMinute.any (fun n => n < RATE_LIMIT_THRESHOLD) ||
    remainingDay.any (fun n => n < RATE_LIMIT_THRESHOLD)

/-- The outcome of one transport attempt: a successful response (headers and
parsed body), or an error carrying the HTTP status code that `getStatusCode`
extracts from it (`none` when the error has no string `httpCode`). -/
inductive AttemptOutcome where
  | success : Headers → JVal → AttemptOutcome
  | failure : Option String → AttemptOutcome

/-- The observable result of `leadspickerApiRequest`: the returned body, the
original error rethrown (identified by its status code), or the generic
post-loop "Exceeded retry attempts" error. -/
inductive RequestResult where
  | ok : JVal → RequestResult
  | err : Option String → RequestResult
  | exhaustedRetries : RequestResult

/-- The retry loop of `leadspickerApiRequest` (updateLead.test.ts lines
200-244).  `transport n` is the outcome of the (0-based) n-th attempt.  The
result is paired with the list of sleeps performed, in order and in
milliseconds: 1000 before returning a throttled success, 10000 before each
429 retry. -/
def apiRequestLoop (transport : Nat → AttemptOutcome) : Nat → Nat → RequestResult × List Nat
  | 0, _ => (.exhaustedRetries, [])
  | fuel + 1, attempt =>
    match transport attempt with
    | .success headers body =>
        if shouldThrottle headers then (.ok body, [THROTTLE_DELAY_MS]) else (.ok body, [])
    | .failure code =>
        if code = some "429" ∧ attempt < MAX_RETRIES - 1 then
          let r := apiRequestLoop transport fuel (attempt + 1)
          (r.1, RETRY_DELAY_MS :: r.2)
        else (.err code, [])

/-- `leadspickerApiRequest`: run the attempt loop with the fixed budget of 6
attempts starting at attempt 0. -/
def leadspickerApiRequest (transport : Nat → AttemptOutcome) : RequestResult × List Nat :=
  apiRequestLoop transport MAX_RETRIES 0

/-! Pagination chunk extraction and the cursor aggregation loop. -/

/-- The chunk extraction of the page-number and offset/limit list loops
(Leadspicker.node.ts lines 576-582 and 926-932, textually identical):
`items` if it is an array, else `results` if it is an array, else the
response itself if it is an array, else the empty list. -/
def extractChunk (resp : JVal) : List JVal :=
  match resp with
  | .obj fields =>
      match lookupField fields "items" with
      | some (.arr xs) => xs
      | _ =>
        match lookupField fields "results" with
        | some (.arr ys) => ys
        | _ => []
  | .arr xs => xs
  | _ => []

/-- The chunk extraction of the cursor loop (Leadspicker.node.ts line 1160):
only `Array.isArray(response?.results)` is accepted. -/
def cursorChunk (resp : JVal) : List JVal :=
  match resp with
  | .obj fields =>
      match lookupField fields "results" with
      | some (.arr xs) => xs
      | _ => []
  | _ => []

/-- `(response?.next_cursor as string | null) ?? null` followed by the JS
truthiness test: only a string survives as a cursor candidate (the typed
fragment of the source annotates `next_cursor` as `string | null`). -/
def getNextCursor (resp : JVal) : Option String :=
  match resp with
  | .obj fields =>
      match lookupField fields "next_cursor" with
      | some (.str s) => some s
      | _ => none
  | _ => none

/-- `if (cursor) body.cursor = cursor`: the cursor is included in the request
body only when truthy (non-empty). -/
def cursorArgOf : Option String → Option String
  | some c => if c = "" then none else some c
  | none => none

/-- The cursor aggregation loop of searchPostReactors (Leadspicker.node.ts
lines 1147-1165).  `gateway i arg` is the response to the i-th call, where
`arg` is the cursor included in that call's body (`none` when absent).  The
loop returns the accumulated results together with the list of cursor
arguments of the calls it issued, and runs for at most `fuel` iterations
(1000 in the source). -/
def runSearchLoop (gateway : Nat → Option String → JVal) :
    Nat → Nat → Option String → List JVal × List (Option String)
  | 0, _, _ => ([], [])
  | fuel + 1, iter, cursor =>
      let arg := cursorArgOf cursor
      let resp := gateway iter arg
      let chunk := cursorChunk resp
      if chunk.isEmpty then ([], [arg])
      else
        match getNextCursor resp with
        | none => (chunk, [arg])
        | some c =>
            if c = "" then (chunk, [arg])
            else
              let r := runSearchLoop gateway fuel (iter + 1) (some c)
              (chunk ++ r.1, arg :: r.2)

/-- The searchPostReactors aggregation: the cursor loop with the source's
1000-iteration cap, starting with no cursor. -/
def searchPostReactors (gateway : Nat → Option String → JVal) :
    List JVal × List (Option String) :=
  runSearchLoop gateway 1000 0 none

/-! `buildLeadPayload` (Leadspicker.node.ts lines 291-335). -/

/-- JavaScript truthiness of a modelled value. -/
def jsTruthy : JVal → Bool
  | .null => false
  | .undef => false
  | .bool b => b
  | .num n => n ≠ 0
  | .str s => !s.data.isEmpty
  | .arr _ => true
  | .obj _ => true

/-- Split a character list into maximal whitespace-free runs: the combined
effect of `split(/\s+/)`, trimming each part and dropping empties. -/
def splitWsAux : List Char → List Char → List (List Char)
  | [], acc => if acc.isEmpty then [] else [acc.reverse]
  | c :: rest, acc =>
      if c.isWhitespace then
        if acc.isEmpty then splitWsAux rest [] else acc.reverse :: splitWsAux rest []
      else splitWsAux rest (c :: acc)

/-- The whitespace-separated tokens of a string. -/
def splitTokens (s : String) : List String :=
  (splitWsAux s.data []).map (fun l => ⟨l⟩)

/-- `parts.join(' ')` on character lists. -/
def joinSpaceChars : List (List Char) → List Char
  | [] => []
  | [l] => l
  | l :: rest => l ++ ' ' :: joinSpaceChars rest

/-- `tokens.join(' ')` for strings. -/
def joinSpaces (ts : List String) : String :=
  ⟨joinSpaceChars (ts.map String.data)⟩

/-- The node parameters consumed by `buildLeadPayload`, as raw values.
`customFields` models the `customFields.field` fixed-collection entries as
(key, value) pairs (absent collection = empty list). -/
structure LeadParams where
  leadCountry : JVal
  leadEmail : JVal
  leadFirstName : JVal
  leadLastName : JVal
  leadPosition : JVal
  leadCompanyName : JVal
  leadCompanyWebsite : JVal
  leadCompanyLinkedin : JVal
  leadLinkedin : JVal
  leadSalesNavigator : JVal
  leadFullName : JVal
  customFields : List (String × JVal)

/-- Is a value removed by the final cleanup loop
(`body[key] === '' || body[key] === null || body[key] === undefined`)? -/
def isRemovedValue : JVal → Bool
  | .str s => s.data.isEmpty
  | .null => true
  | .undef => true
  | _ => false

/-- The field-mapping block of `buildLeadPayload`: `data_source` first, then
the ten mapped lead parameters in `fieldMappings` order. -/
def leadBaseBody (p : LeadParams) : Fields :=
  [("data_source", .str "user_provided"),
   ("country", p.leadCountry),
   ("email", p.leadEmail),
   ("first_name", p.leadFirstName),
   ("last_name", p.leadLastName),
   ("position", p.leadPosition),
   ("company_name", p.leadCompanyName),
   ("company_website", p.leadCompanyWebsite),
   ("company_linkedin", p.leadCompanyLinkedin),
   ("linkedin", p.leadLinkedin),
   ("salesnav", p.leadSalesNavigator)]

/-- The full-name block: when `leadFullName` is a string with at least two
whitespace-separated tokens, assign the first token to `first_name` and the
remaining tokens joined by single spaces to `last_name`. -/
def applyFullName (p : LeadParams) (body : Fields) : Fields :=
  match p.leadFullName with
  | .str s =>
      let nameParts := splitTokens s
      if 2 ≤ nameParts.length then
        setField (setField body "first_name" (.str (nameParts.headD "")))
          "last_name" (.str (joinSpaces nameParts.tail))
      else body
  | _ => body

/-- The custom-fields block: keep entries with truthy key and value, build
the object (later duplicates overwrite earlier ones), and attach it under
`custom_fields` when non-empty. -/
def applyCustomFields (p : LeadParams) (body : Fields) : Fields :=
  let cfs := p.customFields.filter (fun kv => !kv.1.data.isEmpty && jsTruthy kv.2)
  if cfs.isEmpty then body
  else body ++ [("custom_fields", .obj (cfs.foldl (fun acc kv => setField acc kv.1 kv.2) []))]

/-- `buildLeadPayload`: map the ten lead parameters onto payload keys (with
`data_source: 'user_provided'` first), override `first_name`/`last_name` from
a full name containing at least two whitespace-separated tokens, attach
non-empty custom fields, and drop every key holding `''`, `null` or
`undefined`. -/
def buildLeadPayload (p : LeadParams) : Fields :=
  (applyCustomFields p (applyFullName p (leadBaseBody p))).filter
    (fun kv => !isRemovedValue kv.2)

/-- Claim-side notion of a string that denotes a number: after trimming it is
a nonempty, optionally signed digit string.  (Used to state what a
"non-numeric header value" is; the empty string does not denote a number.) -/
def denotesNumber (s : String) : Bool :=
  match trimChars s.data with
  | [] => false
  | '-' :: rest => (digitsToNat rest).isSome
  | '+' :: rest => (digitsToNat rest).isSome
  | t => (digitsToNat t).isSome

/-! ### Claim C1 — retry exhaustion -/

theorem apiRequestLoop_all429 (transport : Nat → AttemptOutcome)
    (h : ∀ n, n < MAX_RETRIES → transport n = .failure (some "429")) :
    ∀ fuel attempt, fuel + attempt = MAX_RETRIES → 0 < fuel →
    apiRequestLoop transport fuel attempt =
      (.err (some "429"), List.replicate (fuel - 1) RETRY_DELAY_MS) := by
  intro fuel
  induction fuel with
  | zero => omega
  | succ f ih =>
    intro attempt hsum _
    have hM : MAX_RETRIES = 6 := rfl
    have ht : transport attempt = .failure (some "429") := h attempt (by omega)
    rw [apiRequestLoop]
    simp only [ht]
    by_cases hlt : attempt < MAX_RETRIES - 1
    · have hf : 0 < f := by omega
      rw [if_pos ⟨trivial, hlt⟩]
      rw [ih (attempt + 1) (by omega) hf]
      have hrepl : f + 1 - 1 = (f - 1) + 1 := by omega
      rw [hrepl, List.replicate_succ]
    · have hf : f = 0 := by omega
      rw [if_neg (fun hc => hlt hc.2)]
      subst hf
      rfl

theorem apiRequestLoop_ne_exhausted (transport : Nat → AttemptOutcome) :
    ∀ fuel attempt, 0 < fuel → MAX_RETRIES ≤ fuel + attempt →
    (apiRequestLoop transport fuel attempt).1 ≠ .exhaustedRetries := by
  intro fuel
  induction fuel with
  | zero => intro attempt h0 _; omega
  | succ f ih =>
    intro attempt _ hinv
    have hM : MAX_RETRIES = 6 := rfl
    rw [apiRequestLoop]
    cases htr : transport attempt with
    | success headers body =>
      by_cases hth : shouldThrottle headers
      · simp [hth]
      · simp [hth]
    | failure code =>
      by_cases hc : code = some "429" ∧ attempt < MAX_RETRIES - 1
      · have hf : 0 < f := by
          have := hc.2
          omega
        simp only [if_pos hc]
        exact ih (attempt + 1) hf (by omega)
      · simp [if_neg hc]

/-- Claim C1: when all 6 attempts fail with HTTP 429, `leadspickerApiRequest`
is claimed to fail with the generic "exceeded retry attempts" error rather
than the raw 429 error.  This is false: the final attempt's 429 does not pass
the `attempt < MAX_RETRIES - 1` retry guard, so the raw 429 error is rethrown
after five 10 s sleeps; the post-loop generic error is never reached. -/
theorem leadspicker_C1_counterexample :
    leadspickerApiRequest (fun _ => .failure (some "429")) =
      (.err (some "429"),
        [RETRY_DELAY_MS, RETRY_DELAY_MS, RETRY_DELAY_MS, RETRY_DELAY_MS, RETRY_DELAY_MS]) ∧
    (leadspickerApiRequest (fun _ => .failure (some "429"))).1 ≠ .exhaustedRetries := by
  constructor
  · rfl
  · intro hc
    rw [show (leadspickerApiRequest (fun _ => .failure (some "429"))).1 = .err (some "429") from rfl] at hc
    cases hc

/-- Claim C1, amended: when all 6 attempts fail with HTTP 429, the call fails
with the raw 429 error of the final attempt, after five reactive 10 s sleeps;
the generic "exceeded retry attempts" error after the loop is unreachable for
every transport. -/
theorem leadspicker_C1_amended (transport : Nat → AttemptOutcome)
    (h : ∀ n, n < MAX_RETRIES → transport n = .failure (some "429")) :
    leadspickerApiRequest transport =
      (.err (some "429"), List.replicate (MAX_RETRIES - 1) RETRY_DELAY_MS) ∧
    ∀ transport2 : Nat → AttemptOutcome,
      (leadspickerApiRequest transport2).1 ≠ .exhaustedRetries := by
  constructor
  · exact apiRequestLoop_all429 transport h MAX_RETRIES 0 (by simp) (by simp [MAX_RETRIES])
  · intro transport2
    exact apiRequestLoop_ne_exhausted transport2 MAX_RETRIES 0 (by simp [MAX_RETRIES]) (by simp)

theorem leadspicker_C1_amended_witness :
    leadspickerApiRequest (fun _ => .failure (some "429")) =
      (.err (some "429"), List.replicate (MAX_RETRIES - 1) RETRY_DELAY_MS) :=
  (leadspicker_C1_amended (fun _ => .failure (some "429")) (fun _ _ => rfl)).1

/-! ### Claim C8 — rate-limit throttle decision -/

/-- Claim C8: a non-numeric header value is claimed to be treated as if the
header were absent.  This fails for the empty string: `Number('')` is `0` in
JavaScript, `0 < 10`, so an empty-string rate-limit header triggers the
throttle even though a missing header does not. -/
theorem leadspicker_C8_counterexample :
    denotesNumber "" = false ∧
    shouldThrottle [("x-ratelimit-remaining-minute", .str "")] = true ∧
    shouldThrottle [] = false :=
  ⟨rfl, rfl, rfl⟩

/-- Claim C8, amended: on a successful response the wrapper sleeps 1000 ms
before returning iff either rate-limit header holds a coerced value strictly
below 10; a repeated header is read through its first element; a missing
header or one whose JavaScript numeric coercion is NaN contributes no
throttle; but an empty (or all-whitespace) string coerces to 0 and therefore
does trigger the throttle. -/
theorem leadspicker_C8_amended
    (transport : Nat → AttemptOutcome) (headers : Headers) (body : JVal)
    (h : transport 0 = .success headers body) :
    leadspickerApiRequest transport =
      (.ok body, if shouldThrottle headers then [THROTTLE_DELAY_MS] else []) ∧
    (∀ hs : Headers, shouldThrottle hs = true ↔
      ((∃ n, toNumber (lookupHeader hs "x-ratelimit-remaining-minute") = some n ∧
          n < RATE_LIMIT_THRESHOLD) ∨
       (∃ n, toNumber (lookupHeader hs "x-ratelimit-remaining-day") = some n ∧
          n < RATE_LIMIT_THRESHOLD))) ∧
    (∀ (s : String) (rest : List String),
      toNumber (some (.list (s :: rest))) = toNumber (some (.str s))) ∧
    (∀ s : String, jsStrToNum s = none →
      shouldThrottle [("x-ratelimit-remaining-minute", .str s)] = false) ∧
    shouldThrottle [("x-ratelimit-remaining-minute", .str "")] = true := by
  refine ⟨?_, ?_, ?_, ?_, rfl⟩
  · rw [leadspickerApiRequest]
    rw [show MAX_RETRIES = 5 + 1 from rfl]
    rw [apiRequestLoop]
    simp only [h]
    by_cases hth : shouldThrottle headers
    · simp [hth]
    · simp [hth]
  · intro hs
    rcases hmin : toNumber (lookupHeader hs "x-ratelimit-remaining-minute") with _ | n <;>
      rcases hday : toNumber (lookupHeader hs "x-ratelimit-remaining-day") with _ | m <;>
        simp [shouldThrottle, hmin, hday]
  · intro s rest
    rfl
  · intro s hs
    simp [shouldThrottle, toNumber, lookupHeader, hs]

theorem leadspicker_C8_amended_witness :
    leadspickerApiRequest
        (fun _ => .success [("x-ratelimit-remaining-minute", .str "5")] (.num 1)) =
      (.ok (.num 1), [THROTTLE_DELAY_MS]) ∧
    shouldThrottle [("x-ratelimit-remaining-minute", .str "abc")] = false :=
  ⟨((leadspicker_C8_amended
      (fun _ => .success [("x-ratelimit-remaining-minute", .str "5")] (.num 1))
      [("x-ratelimit-remaining-minute", .str "5")] (.num 1) rfl).1).trans (by rfl),
   (leadspicker_C8_amended (fun _ => .success [] .null) [] .null rfl).2.2.2.1 "abc" rfl⟩

/-! ### Claim C6 — cursor aggregation -/

/-- Claim C6: with a first response `{results: chunk1, next_cursor: c}` (a
non-empty chunk, non-empty cursor) and a second response
`{results: chunk2, next_cursor: null}`, the searchPostReactors aggregation
returns `chunk1 ++ chunk2` in order, makes exactly two gateway calls, the
second including cursor `c` in its body, and stops on the null cursor. -/
theorem leadspicker_C6 (gateway : Nat → Option String → JVal)
    (chunk1 chunk2 : List JVal) (c : String)
    (h1 : gateway 0 none = .obj [("results", .arr chunk1), ("next_cursor", .str c)])
    (h2 : gateway 1 (some c) = .obj [("results", .arr chunk2), ("next_cursor", .null)])
    (hne : chunk1 ≠ [])
    (hc : c ≠ "") :
    searchPostReactors gateway = (chunk1 ++ chunk2, [none, some c]) := by
  rw [searchPostReactors]
  rw [show (1000 : Nat) = 999 + 1 from rfl]
  rw [runSearchLoop]
  simp only [cursorArgOf, h1, cursorChunk, getNextCursor, lookupField]
  simp only [show ("results" = "results") = True by simp,
    show ("results" = "next_cursor") = False by simp, if_true, if_false]
  rw [if_neg (by simpa [List.isEmpty_iff] using hne)]
  simp only [hc, if_false]
  rw [show (999 : Nat) = 998 + 1 from rfl]
  rw [runSearchLoop]
  simp only [cursorArgOf, if_neg hc, h2, cursorChunk, getNextCursor, lookupField]
  simp only [show ("results" = "results") = True by simp,
    show ("results" = "next_cursor") = False by simp, if_true, if_false]
  by_cases h2e : chunk2 = []
  · subst h2e
    simp
  · rw [if_neg (by simpa [List.isEmpty_iff] using h2e)]

/-- Closed instantiation of the cursor-aggregation theorem at a concrete
two-page gateway. -/
theorem leadspicker_C6_witness :
    searchPostReactors (fun i _ =>
      if i = 0 then .obj [("results", .arr [.num 1]), ("next_cursor", .str "a")]
      else .obj [("results", .arr [.num 2]), ("next_cursor", .null)]) =
      ([.num 1, .num 2], [none, some "a"]) :=
  leadspicker_C6 _ [.num 1] [.num 2] "a" rfl rfl (by simp) (by simp)

/-! ### Claim C7 — pagination response-shape coercion -/

/-- Claim C7: all three pagination variants are claimed to accept `items`,
`results` and bare-array response shapes.  This is false for the cursor
variant, which reads only `Array.isArray(response?.results)`: a bare-array
response (or an `items` envelope) is coerced to the empty chunk and stops the
loop, while the page/offset extraction does accept the same bare array. -/
theorem leadspicker_C7_counterexample :
    cursorChunk (.arr [.str "x"]) = [] ∧
    cursorChunk (.obj [("items", .arr [.str "x"])]) = [] ∧
    extractChunk (.arr [.str "x"]) = [.str "x"] ∧
    extractChunk (.obj [("items", .arr [.str "x"])]) = [.str "x"] ∧
    searchPostReactors (fun _ _ => .arr [.str "x"]) = ([], [none]) :=
  ⟨rfl, rfl, rfl, rfl, rfl⟩

/-- Claim C7, amended: the page-number and offset/limit list loops extract a
page's items from `items`, else `results`, else the bare-array response, and
coerce anything else to the empty sequence; the cursor variant accepts only
an object whose `results` field is an array, coercing every other shape
(including `items` envelopes and bare arrays) to the empty sequence. -/
theorem leadspicker_C7_amended :
    (∀ (fields : Fields) (xs : List JVal),
      lookupField fields "items" = some (.arr xs) →
      extractChunk (.obj fields) = xs) ∧
    (∀ (fields : Fields) (ys : List JVal),
      (∀ xs, lookupField fields "items" ≠ some (.arr xs)) →
      lookupField fields "results" = some (.arr ys) →
      extractChunk (.obj fields) = ys) ∧
    (∀ xs : List JVal, extractChunk (.arr xs) = xs) ∧
    (∀ v : JVal, isContainer v = false → extractChunk v = []) ∧
    (∀ (fields : Fields) (ys : List JVal),
      lookupField fields "results" = some (.arr ys) →
      cursorChunk (.obj fields) = ys) ∧
    (∀ fields : Fields,
      (∀ ys, lookupField fields "results" ≠ some (.arr ys)) →
      cursorChunk (.obj fields) = []) ∧
    (∀ v : JVal, isPlainObject v = false → cursorChunk v = []) := by
  refine ⟨?_, ?_, ?_, ?_, ?_, ?_, ?_⟩
  · intro fields xs h
    simp [extractChunk, h]
  · intro fields ys hni hr
    cases hit : lookupField fields "items" with
    | none => simp [extractChunk, hit, hr]
    | some w =>
      cases w with
      | arr xs => exact absurd hit (hni xs)
      | null => simp [extractChunk, hit, hr]
      | undef => simp [extractChunk, hit, hr]
      | bool b => simp [extractChunk, hit, hr]
      | num n => simp [extractChunk, hit, hr]
      | str s => simp [extractChunk, hit, hr]
      | obj o => simp [extractChunk, hit, hr]
  · intro xs
    rfl
  · intro v hv
    cases v <;> first | rfl | simp [isContainer] at hv
  · intro fields ys h
    simp [cursorChunk, h]
  · intro fields hni
    cases hr : lookupField fields "results" with
    | none => simp [cursorChunk, hr]
    | some w =>
      cases w with
      | arr ys => exact absurd hr (hni ys)
      | null => simp [cursorChunk, hr]
      | undef => simp [cursorChunk, hr]
      | bool b => simp [cursorChunk, hr]
      | num n => simp [cursorChunk, hr]
      | str s => simp [cursorChunk, hr]
      | obj o => simp [cursorChunk, hr]
  · intro v hv
    cases v <;> first | rfl | simp [isPlainObject] at hv

/-- Closed instantiation of the amended chunk-extraction rules. -/
theorem leadspicker_C7_amended_witness :
    extractChunk (.obj [("items", .arr [.num 1])]) = [.num 1] ∧
    extractChunk (.obj [("count", .num 7), ("results", .arr [.num 2])]) = [.num 2] ∧
    cursorChunk (.obj [("results", .arr [.num 3])]) = [.num 3] ∧
    cursorChunk (.str "nope") = [] :=
  ⟨leadspicker_C7_amended.1 _ [.num 1] rfl,
   leadspicker_C7_amended.2.1 _ [.num 2] (by intro xs; simp [lookupField]) rfl,
   leadspicker_C7_amended.2.2.2.2.1 _ [.num 3] rfl,
   leadspicker_C7_amended.2.2.2.2.2.2 (.str "nope") rfl⟩

/-! ### Claim C5 — blacklist categorizer partition -/

/-- Does the lower-cased entry match the company/school LinkedIn patterns? -/
def companyPattern (e : String) : Bool :=
  jsIncludes (jsToLower e) "linkedin.com/company" || jsIncludes (jsToLower e) "linkedin.com/school"

/-- Does the lower-cased entry contain any LinkedIn path? -/
def linkedinPattern (e : String) : Bool :=
  jsIncludes (jsToLower e) "linkedin.com/"

/-- First-match classification: the entry contains an '@'. -/
def isEmailEntry (e : String) : Bool :=
  containsChars e.data ['@']

/-- First-match classification: not an email, company/school pattern. -/
def isCompanyEntry (e : String) : Bool :=
  !isEmailEntry e && companyPattern e

/-- First-match classification: not an email, not company/school, any
LinkedIn path. -/
def isLinkedinEntry (e : String) : Bool :=
  !isEmailEntry e && !companyPattern e && linkedinPattern e

/-- First-match classification: everything else. -/
def isDomainEntry (e : String) : Bool :=
  !isEmailEntry e && !companyPattern e && !linkedinPattern e

theorem categorize_foldl_characterization (entries : List String) (b : BlacklistBuckets) :
    entries.foldl categorizeStep b =
      ⟨b.emails ++ entries.filter isEmailEntry,
       b.linkedins ++ entries.filter isLinkedinEntry,
       b.company_linkedins ++ entries.filter isCompanyEntry,
       b.domains ++ entries.filter isDomainEntry⟩ := by
  induction entries generalizing b with
  | nil =>
    cases b
    simp
  | cons e rest ih =>
    rw [List.foldl_cons, ih]
    cases h1 : containsChars e.data ['@'] <;>
      cases h2 : jsIncludes (jsToLower e) "linkedin.com/company" <;>
        cases h2b : jsIncludes (jsToLower e) "linkedin.com/school" <;>
          cases h3 : jsIncludes (jsToLower e) "linkedin.com/" <;>
            simp [categorizeStep, List.filter_cons, isEmailEntry, isCompanyEntry,
              isLinkedinEntry, isDomainEntry, companyPattern, linkedinPattern,
              h1, h2, h2b, h3]

theorem categorize_exactly_one (e : String) :
    (isEmailEntry e).toNat + (isCompanyEntry e).toNat +
      (isLinkedinEntry e).toNat + (isDomainEntry e).toNat = 1 := by
  cases h1 : containsChars e.data ['@'] <;>
    cases h2 : jsIncludes (jsToLower e) "linkedin.com/company" <;>
      cases h2b : jsIncludes (jsToLower e) "linkedin.com/school" <;>
        cases h3 : jsIncludes (jsToLower e) "linkedin.com/" <;>
          simp [isEmailEntry, isCompanyEntry, isLinkedinEntry, isDomainEntry,
            companyPattern, linkedinPattern, h1, h2, h2b, h3]

theorem categorize_filter_lengths (l : List String) :
    (l.filter isEmailEntry).length + (l.filter isLinkedinEntry).length +
      (l.filter isCompanyEntry).length + (l.filter isDomainEntry).length = l.length := by
  induction l with
  | nil => rfl
  | cons e rest ih =>
    cases h1 : containsChars e.data ['@'] <;>
      cases h2 : jsIncludes (jsToLower e) "linkedin.com/company" <;>
        cases h2b : jsIncludes (jsToLower e) "linkedin.com/school" <;>
          cases h3 : jsIncludes (jsToLower e) "linkedin.com/" <;>
            simp [List.filter_cons, isEmailEntry, isCompanyEntry, isLinkedinEntry,
              isDomainEntry, companyPattern, linkedinPattern, h1, h2, h2b, h3] <;>
            omega

/-- Claim C5: the categorizer partitions its input: the four buckets are the
order-preserving, original-case sublists of entries matching (in first-match
order) the '@' test, then the company/school LinkedIn patterns on the
lower-cased copy, then any LinkedIn path, then the domain fallback; each
entry falls in exactly one class and the bucket lengths sum to the input
length. -/
theorem leadspicker_C5 (entries : List String) :
    categorizeBlacklistEntries entries =
      ⟨entries.filter isEmailEntry,
       entries.filter isLinkedinEntry,
       entries.filter isCompanyEntry,
       entries.filter isDomainEntry⟩ ∧
    (∀ e : String, (isEmailEntry e).toNat + (isCompanyEntry e).toNat +
      (isLinkedinEntry e).toNat + (isDomainEntry e).toNat = 1) ∧
    (categorizeBlacklistEntries entries).emails.length +
      (categorizeBlacklistEntries entries).linkedins.length +
      (categorizeBlacklistEntries entries).company_linkedins.length +
      (categorizeBlacklistEntries entries).domains.length = entries.length := by
  have hch := categorize_foldl_characterization entries ⟨[], [], [], []⟩
  refine ⟨?_, categorize_exactly_one, ?_⟩
  · rw [categorizeBlacklistEntries, hch]
    simp
  · rw [categorizeBlacklistEntries, hch]
    simpa using categorize_filter_lengths entries

/-! ### Claim C2 — flattener idempotence -/

/-- Claim C2: the flattener is claimed to be idempotent on every JSON value.
This is false: for `{value: 5, contact_data: {}}`, the `contact_data` key
blocks the wrapper check, the merge removes it, and the first pass returns
`{value: 5}` — which the second pass unwraps to `5`. -/
theorem leadspicker_C2_counterexample :
    flattenLeadPayload (.obj [("value", .num 5), ("contact_data", .obj [])]) =
      .obj [("value", .num 5)] ∧
    flattenLeadPayload (flattenLeadPayload (.obj [("value", .num 5), ("contact_data", .obj [])])) =
      .num 5 ∧
    flattenLeadPayload (flattenLeadPayload (.obj [("value", .num 5), ("contact_data", .obj [])])) ≠
      flattenLeadPayload (.obj [("value", .num 5), ("contact_data", .obj [])]) := by
  have h1 : flattenLeadPayload (.obj [("value", .num 5), ("contact_data", .obj [])]) =
      .obj [("value", .num 5)] := by
    rw [flatten_obj_plain _ (by rfl)]
    rw [show mergePhase [("value", JVal.num 5), ("contact_data", JVal.obj [])] =
      [("value", JVal.num 5)] from rfl]
    simp [isContainer]
  have h2 : flattenLeadPayload (.obj [("value", .num 5)]) = .num 5 := by
    rw [flatten_obj_attr _ (by rfl)]
    simp [lookupField, flattenLeadPayload]
  refine ⟨h1, by rw [h1, h2], ?_⟩
  rw [h1, h2]
  simp

/-- Claim C2, amended: the flattener is not idempotent in general, but
flattening an already-flat value — one containing no attribute-value wrapper
object and no `contact_data`/`person_data` key holding a plain object — is a
no-op, and hence idempotent there. -/
theorem leadspicker_C2_amended (v : JVal) (h : FlatVal v = true) :
    flattenLeadPayload v = v ∧
    flattenLeadPayload (flattenLeadPayload v) = flattenLeadPayload v := by
  have h1 := flatten_flat v h
  exact ⟨h1, by rw [h1, h1]⟩

theorem leadspicker_C2_amended_witness :
    flattenLeadPayload (.obj [("a", .str "x"), ("n", .num 3)]) =
      .obj [("a", .str "x"), ("n", .num 3)] :=
  (leadspicker_C2_amended (.obj [("a", .str "x"), ("n", .num 3)]) (by
    rw [FlatVal_obj]
    simp [isAttributeValueObject, hasKey, isDetailObj, lookupField]
    constructor
    · simp [FlatVal]
    · simp [FlatVal])).1

/-! ### Claim C4 — attribute-wrapper unwrap -/

/-- Claim C4: an object owning key `value` whose other keys all lie in
{created, id, enrichment_status, validation_status} is replaced by the
flattening of its `value` field; `{value: "v", created: "t", id: 1}` flattens
to `"v"`; an object with an extra key alongside `value` is not unwrapped and
goes through the generic object rule instead. -/
theorem leadspicker_C4 (fields : Fields)
    (h1 : hasKey fields "value" = true)
    (h2 : fields.all (fun kv => allowedAttrKeys.contains kv.1) = true) :
    flattenLeadPayload (.obj fields) =
      flattenLeadPayload ((lookupField fields "value").getD .null) ∧
    flattenLeadPayload (.obj [("value", .str "v"), ("created", .str "t"), ("id", .num 1)]) =
      .str "v" ∧
    (∀ fields2 : Fields,
      fields2.all (fun kv => allowedAttrKeys.contains kv.1) = false →
      flattenLeadPayload (.obj fields2) =
        .obj ((mergePhase fields2).map (fun kv => (kv.1, flattenEntry kv.2)))) ∧
    flattenLeadPayload (.obj [("value", .str "v"), ("extra", .str "e")]) =
      .obj [("value", .str "v"), ("extra", .str "e")] := by
  refine ⟨flatten_obj_attr fields (by unfold isAttributeValueObject; rw [h1, h2]; rfl), ?_, ?_, ?_⟩
  · rw [flatten_obj_attr _ (by rfl)]
    simp [lookupField, flattenLeadPayload]
  · intro fields2 hf2
    exact flatten_obj_plain2 fields2 (by unfold isAttributeValueObject; rw [hf2]; simp)
  · rw [flatten_obj_plain _ (by rfl)]
    rw [show mergePhase [("value", JVal.str "v"), ("extra", JVal.str "e")] =
      [("value", JVal.str "v"), ("extra", JVal.str "e")] from rfl]
    simp [isContainer]

theorem leadspicker_C4_witness :
    flattenLeadPayload (.obj [("value", .str "w"), ("id", .num 2)]) =
      flattenLeadPayload
        ((lookupField [("value", JVal.str "w"), ("id", JVal.num 2)] "value").getD .null) :=
  (leadspicker_C4 [("value", JVal.str "w"), ("id", JVal.num 2)] rfl rfl).1

/-! ### Claim C3 — contact_data/person_data merge precedence -/

/-- Claim C3: `contact_data` is claimed to win over `person_data` on every
overlapping key because it is merged first.  This fails when the value lifted
from `contact_data` is itself non-meaningful: merging
`{contact_data: {a: ""}, person_data: {a: "p"}}` first sets `a` to `""`,
which the `person_data` pass then overwrites (an empty string is not a
meaningful value), yielding `{a: "p"}` rather than `{a: ""}`. -/
theorem leadspicker_C3_counterexample :
    flattenLeadPayload (.obj [("contact_data", .obj [("a", .str "")]),
        ("person_data", .obj [("a", .str "p")])]) =
      .obj [("a", .str "p")] ∧
    flattenLeadPayload (.obj [("contact_data", .obj [("a", .str "")]),
        ("person_data", .obj [("a", .str "p")])]) ≠
      .obj [("a", .str "")] := by
  have h : flattenLeadPayload (.obj [("contact_data", .obj [("a", .str "")]),
      ("person_data", .obj [("a", .str "p")])]) = .obj [("a", .str "p")] := by
    rw [flatten_obj_plain _ (by rfl)]
    rw [show mergePhase [("contact_data", JVal.obj [("a", JVal.str "")]),
      ("person_data", JVal.obj [("a", JVal.str "p")])] = [("a", JVal.str "p")] from rfl]
    simp [isContainer]
  refine ⟨h, ?_⟩
  rw [h]
  simp

/-- Claim C3, amended: when flattening a plain object whose `contact_data`
and `person_data` fields are plain objects (with duplicate-free keys), each
nested field is merged only where the partially merged record does not
already hold a meaningful value — `contact_data` first, then `person_data`,
so `contact_data` wins an overlapping key whenever its value is meaningful,
while a non-meaningful lifted value may still be overwritten by
`person_data`; `person_data` is always removed, `contact_data` is removed and
can only reappear from inside `person_data`; the flattening of
`{foo: "x", contact_data: {foo: "y", bar: "z"}}` is `{foo: "x", bar: "z"}`. -/
theorem leadspicker_C3_amended
    (fields cd pd : Fields)
    (hcd : lookupField fields "contact_data" = some (.obj cd))
    (hpd : lookupField fields "person_data" = some (.obj pd))
    (hncd : (cd.map Prod.fst).Nodup)
    (hnpd : (pd.map Prod.fst).Nodup) :
    flattenLeadPayload (.obj fields) =
      .obj ((mergePhase fields).map (fun kv => (kv.1, flattenEntry kv.2))) ∧
    (∀ k, k ≠ "contact_data" → k ≠ "person_data" →
      lookupField (mergePhase fields) k =
        mergeStepLookup (mergeStepLookup (lookupField fields k) (lookupField cd k))
          (lookupField pd k)) ∧
    lookupField (mergePhase fields) "person_data" = none ∧
    lookupField (mergePhase fields) "contact_data" = lookupField pd "contact_data" ∧
    flattenLeadPayload (.obj [("foo", .str "x"),
        ("contact_data", .obj [("foo", .str "y"), ("bar", .str "z")])]) =
      .obj [("foo", .str "x"), ("bar", .str "z")] := by
  have hattr : isAttributeValueObject fields = false :=
    attr_false_of_detail hcd rfl
  have hpd1 : lookupField (mergeDetail fields "contact_data") "person_data" =
      some (.obj pd) := by
    rw [lookupField_mergeDetail hcd hncd "person_data"]
    rw [if_neg (by decide)]
    rw [hpd, @mergeStepLookup_meaningful (some (.obj pd)) (lookupField cd "person_data") rfl]
  refine ⟨flatten_obj_plain2 fields hattr, ?_, ?_, ?_, ?_⟩
  · intro k hk1 hk2
    rw [mergePhase, lookupField_mergeDetail hpd1 hnpd k,
      if_neg (fun h => hk2 h.symm),
      lookupField_mergeDetail hcd hncd k,
      if_neg (fun h => hk1 h.symm)]
  · rw [mergePhase, lookupField_mergeDetail hpd1 hnpd "person_data", if_pos rfl]
  · rw [mergePhase, lookupField_mergeDetail hpd1 hnpd "contact_data",
      if_neg (by decide),
      lookupField_mergeDetail hcd hncd "contact_data", if_pos rfl]
    cases hl : lookupField pd "contact_data" <;>
      simp [mergeStepLookup, hasMeaningfulValue]
  · rw [flatten_obj_plain _ (by rfl)]
    rw [show mergePhase [("foo", JVal.str "x"),
      ("contact_data", JVal.obj [("foo", JVal.str "y"), ("bar", JVal.str "z")])] =
      [("foo", JVal.str "x"), ("bar", JVal.str "z")] from rfl]
    simp [isContainer]

theorem leadspicker_C3_amended_witness :
    lookupField (mergePhase [("foo", JVal.str ""),
      ("contact_data", JVal.obj [("foo", JVal.str "c")]),
      ("person_data", JVal.obj [("foo", JVal.str "p"), ("extra", JVal.num 7)])]) "foo" =
      some (.str "c") :=
  ((leadspicker_C3_amended
      [("foo", JVal.str ""),
       ("contact_data", JVal.obj [("foo", JVal.str "c")]),
       ("person_data", JVal.obj [("foo", JVal.str "p"), ("extra", JVal.num 7)])]
      [("foo", JVal.str "c")]
      [("foo", JVal.str "p"), ("extra", JVal.num 7)]
      rfl rfl (by simp) (by simp)).2.1 "foo" (by simp) (by simp)).trans (by rfl)

/-! ### Claim C9 — trigger normalization vs the flattener -/

/-- First-some combinator: the per-key semantics of an unconditional
overwrite merge (left operand wins whenever present). -/
def firstSome (a b : Option JVal) : Option JVal :=
  match a with
  | some v => some v
  | none => b

/-- The record built by `flattenPerson` for a plain object. -/
def flattenPersonFields (fields : Fields) : Fields :=
  let base : Fields :=
    match lookupField fields "person_data" with
    | some (.obj details) => details.foldl (fun acc kv => setField acc kv.1 kv.2) []
    | _ => []
  fields.foldl (fun acc kv => if kv.1 = "person_data" then acc else setField acc kv.1 kv.2) base

theorem flattenPerson_obj (fields : Fields) :
    flattenPerson (.obj fields) = some (flattenPersonFields fields) := rfl

theorem setField_append_of_absent {acc : Fields} {k : String} (v : JVal)
    (h : lookupField acc k = none) : setField acc k v = acc ++ [(k, v)] := by
  induction acc with
  | nil => simp [setField]
  | cons kv rest ih =>
    obtain ⟨k0, v0⟩ := kv
    by_cases hk : k0 = k
    · simp [lookupField, hk] at h
    · simp [lookupField, hk] at h
      simp [setField, hk, ih h]

theorem lookupField_append (l1 l2 : Fields) (k : String) :
    lookupField (l1 ++ l2) k = firstSome (lookupField l1 k) (lookupField l2 k) := by
  induction l1 with
  | nil => simp [lookupField, firstSome]
  | cons kv rest ih =>
    obtain ⟨k0, v0⟩ := kv
    by_cases hk : k0 = k
    · simp [lookupField, hk, firstSome]
    · simp [lookupField, hk, ih]

theorem lookup_none_forall {l : Fields} {k : String}
    (h : lookupField l k = none) : ∀ kv ∈ l, kv.1 ≠ k := by
  induction l with
  | nil => simp
  | cons kv0 rest ih =>
    obtain ⟨k0, v0⟩ := kv0
    by_cases hk : k0 = k
    · simp [lookupField, hk] at h
    · simp [lookupField, hk] at h
      intro kv hkv
      rcases List.mem_cons.mp hkv with hkv | hkv
      · subst hkv; exact hk
      · exact ih h kv hkv

theorem lookup_fold_set {d : Fields} (acc : Fields) (k : String)
    (hnd : (d.map Prod.fst).Nodup) :
    lookupField (d.foldl (fun a kv => setField a kv.1 kv.2) acc) k =
      firstSome (lookupField d k) (lookupField acc k) := by
  induction d generalizing acc with
  | nil => simp [lookupField, firstSome]
  | cons kv rest ih =>
    obtain ⟨k0, v0⟩ := kv
    simp at hnd
    obtain ⟨hk0, hrest⟩ := hnd
    rw [List.foldl_cons, ih _ hrest]
    by_cases hk : k0 = k
    · subst hk
      have hnone : lookupField rest k0 = none := by
        cases hl : lookupField rest k0 with
        | none => rfl
        | some w =>
          exact absurd (List.mem_map_of_mem Prod.fst (mem_of_lookupField hl)) (by simpa using hk0)
      rw [hnone]
      simp [lookupField, firstSome, lookupField_setField_eq]
    · rw [lookupField_setField_ne _ _ _ _ hk]
      simp [lookupField, hk]

theorem lookup_overlay {fields : Fields} (acc : Fields) (k : String)
    (hnd : (fields.map Prod.fst).Nodup) :
    lookupField (fields.foldl
        (fun a kv => if kv.1 = "person_data" then a else setField a kv.1 kv.2) acc) k =
      if k = "person_data" then lookupField acc k
      else firstSome (lookupField fields k) (lookupField acc k) := by
  induction fields generalizing acc with
  | nil =>
    by_cases hk : k = "person_data" <;> simp [lookupField, firstSome, hk]
  | cons kv rest ih =>
    obtain ⟨k0, v0⟩ := kv
    simp at hnd
    obtain ⟨hk0, hrest⟩ := hnd
    rw [List.foldl_cons]
    by_cases hpd : k0 = "person_data"
    · rw [if_pos hpd, ih _ hrest]
      by_cases hk : k = "person_data"
      · simp [hk]
      · have : k0 ≠ k := by rw [hpd]; exact fun h => hk h.symm
        simp [lookupField, this, hk]
    · rw [if_neg hpd, ih _ hrest]
      by_cases hk : k = "person_data"
      · rw [if_pos hk, if_pos hk]
        rw [lookupField_setField_ne _ _ _ _ (by rw [hk]; exact hpd)]
      · rw [if_neg hk, if_neg hk]
        by_cases hkk : k0 = k
        · subst hkk
          have hnone : lookupField rest k0 = none := by
            cases hl : lookupField rest k0 with
            | none => rfl
            | some w =>
              exact absurd (List.mem_map_of_mem Prod.fst (mem_of_lookupField hl))
                (by simpa using hk0)
          rw [hnone]
          simp [lookupField, firstSome, lookupField_setField_eq]
        · rw [lookupField_setField_ne _ _ _ _ hkk]
          simp [lookupField, hkk]

theorem overlay_eq_fold (entries : Fields) (acc : Fields)
    (h : ∀ kv ∈ entries, kv.1 ≠ "person_data") :
    entries.foldl (fun a kv => if kv.1 = "person_data" then a else setField a kv.1 kv.2) acc =
      entries.foldl (fun a kv => setField a kv.1 kv.2) acc := by
  induction entries generalizing acc with
  | nil => rfl
  | cons kv rest ih =>
    rw [List.foldl_cons, List.foldl_cons]
    rw [if_neg (h kv (List.mem_cons_self _ _))]
    exact ih _ (fun kv2 hkv2 => h kv2 (List.mem_cons_of_mem _ hkv2))

theorem foldl_set_disjoint (entries : Fields) (acc : Fields)
    (hnd : (entries.map Prod.fst).Nodup)
    (hdisj : ∀ kv ∈ entries, lookupField acc kv.1 = none) :
    entries.foldl (fun a kv => setField a kv.1 kv.2) acc = acc ++ entries := by
  induction entries generalizing acc with
  | nil => simp
  | cons kv rest ih =>
    obtain ⟨k0, v0⟩ := kv
    simp at hnd
    obtain ⟨hk0, hrest⟩ := hnd
    rw [List.foldl_cons]
    rw [setField_append_of_absent v0 (hdisj (k0, v0) (List.mem_cons_self _ _))]
    rw [ih _ hrest]
    · simp
    · intro kv2 hkv2
      rw [lookupField_append]
      rw [hdisj kv2 (List.mem_cons_of_mem _ hkv2)]
      have hne : kv2.1 ≠ k0 := by
        intro hc
        have hmem : (k0, kv2.2) ∈ rest := by
          have hm2 : (kv2.1, kv2.2) ∈ rest := by simpa using hkv2
          rwa [hc] at hm2
        exact hk0 kv2.2 hmem
      simp [lookupField, firstSome, Ne.symm hne]

/-- Claim C9: the trigger's `flattenPerson` is claimed to coincide with
`flattenLeadPayload` on every person record.  It does not: `flattenPerson`
ignores `contact_data` entirely (as well as attribute wrappers and nested
records), so `{contact_data: {a: 1}}` is returned unchanged by the trigger
while the flattener lifts it to `{a: 1}`. -/
theorem leadspicker_C9_counterexample :
    flattenPerson (.obj [("contact_data", .obj [("a", .num 1)])]) =
      some [("contact_data", .obj [("a", .num 1)])] ∧
    flattenLeadPayload (.obj [("contact_data", .obj [("a", .num 1)])]) =
      .obj [("a", .num 1)] ∧
    Option.map JVal.obj (flattenPerson (.obj [("contact_data", .obj [("a", .num 1)])])) ≠
      some (flattenLeadPayload (.obj [("contact_data", .obj [("a", .num 1)])])) := by
  have h2 : flattenLeadPayload (.obj [("contact_data", .obj [("a", .num 1)])]) =
      .obj [("a", .num 1)] := by
    rw [flatten_obj_plain _ (by rfl)]
    rw [show mergePhase [("contact_data", JVal.obj [("a", JVal.num 1)])] =
      [("a", JVal.num 1)] from rfl]
    simp [isContainer]
  refine ⟨rfl, h2, ?_⟩
  rw [h2]
  intro hc
  rw [show flattenPerson (.obj [("contact_data", .obj [("a", .num 1)])]) =
    some [("contact_data", JVal.obj [("a", JVal.num 1)])] from rfl] at hc
  simp at hc

/-- Claim C9, amended: the trigger's `flattenPerson` merges only
`person_data`, with top-level fields overwriting nested ones unconditionally
(even with non-meaningful values), performs no recursion, no attribute-value
unwrapping and no `contact_data` handling; it agrees with
`flattenLeadPayload` on already-flat records without a `person_data` key, but
not in general. -/
theorem leadspicker_C9_amended (fields d : Fields)
    (h : lookupField fields "person_data" = some (.obj d))
    (hndf : (fields.map Prod.fst).Nodup)
    (hndd : (d.map Prod.fst).Nodup) :
    flattenPerson (.obj fields) = some (flattenPersonFields fields) ∧
    (∀ k, k ≠ "person_data" →
      lookupField (flattenPersonFields fields) k =
        firstSome (lookupField fields k) (lookupField d k)) ∧
    lookupField (flattenPersonFields fields) "person_data" =
      lookupField d "person_data" ∧
    (∀ fields2 : Fields, (fields2.map Prod.fst).Nodup →
      lookupField fields2 "person_data" = none →
      flattenPerson (.obj fields2) = some fields2) ∧
    (∀ fields2 : Fields, (fields2.map Prod.fst).Nodup →
      lookupField fields2 "person_data" = none →
      FlatVal (.obj fields2) = true →
      Option.map JVal.obj (flattenPerson (.obj fields2)) =
        some (flattenLeadPayload (.obj fields2))) := by
  have hbase : flattenPersonFields fields =
      fields.foldl (fun acc kv => if kv.1 = "person_data" then acc else setField acc kv.1 kv.2)
        (d.foldl (fun a kv => setField a kv.1 kv.2) []) := by
    rw [flattenPersonFields, h]
  have hplain : ∀ fields2 : Fields, (fields2.map Prod.fst).Nodup →
      lookupField fields2 "person_data" = none →
      flattenPerson (.obj fields2) = some fields2 := by
    intro fields2 hnd2 hno
    rw [flattenPerson_obj, flattenPersonFields, hno]
    rw [overlay_eq_fold fields2 [] (lookup_none_forall hno)]
    rw [foldl_set_disjoint fields2 [] hnd2 (fun kv _ => rfl)]
    simp
  refine ⟨flattenPerson_obj fields, ?_, ?_, hplain, ?_⟩
  · intro k hk
    rw [hbase, lookup_overlay _ k hndf, if_neg hk, lookup_fold_set [] k hndd]
    cases hl : lookupField d k <;> simp [firstSome, lookupField]
  · rw [hbase, lookup_overlay _ "person_data" hndf, if_pos rfl,
      lookup_fold_set [] "person_data" hndd]
    cases hl : lookupField d "person_data" <;> simp [firstSome, lookupField]
  · intro fields2 hnd2 hno hflat
    rw [hplain fields2 hnd2 hno]
    rw [flatten_flat _ hflat]
    rfl

theorem leadspicker_C9_amended_witness :
    lookupField (flattenPersonFields
      [("foo", JVal.str ""),
       ("person_data", JVal.obj [("foo", JVal.str "p"), ("b", JVal.num 1)])]) "foo" =
      some (.str "") :=
  ((leadspicker_C9_amended
      [("foo", JVal.str ""),
       ("person_data", JVal.obj [("foo", JVal.str "p"), ("b", JVal.num 1)])]
      [("foo", JVal.str "p"), ("b", JVal.num 1)]
      rfl (by simp) (by simp)).2.1 "foo" (by simp)).trans (by rfl)

/-! ### Claim C10 — buildLeadPayload -/

/-- The whitespace-separated tokens of the `leadFullName` parameter (empty
when the parameter is not a string, matching the `typeof` guard). -/
def fullNameParts (p : LeadParams) : List String :=
  match p.leadFullName with
  | .str s => splitTokens s
  | _ => []

theorem splitWsAux_mem_ne_nil :
    ∀ (l acc : List Char) (x : List Char), x ∈ splitWsAux l acc → x ≠ [] := by
  intro l
  induction l with
  | nil =>
    intro acc x hx
    by_cases ha : acc.isEmpty
    · simp [splitWsAux, ha] at hx
    · simp [splitWsAux, ha] at hx
      subst hx
      simp [List.isEmpty_iff] at ha
      simpa using ha
  | cons c rest ih =>
    intro acc x hx
    by_cases hws : c.isWhitespace
    · by_cases ha : acc.isEmpty
      · rw [splitWsAux] at hx
        simp only [hws, if_true, ha] at hx
        exact ih [] x hx
      · rw [splitWsAux] at hx
        simp only [hws, if_true, ha, if_false] at hx
        rcases List.mem_cons.mp hx with hx | hx
        · subst hx
          simp [List.isEmpty_iff] at ha
          simpa using ha
        · exact ih [] x hx
    · rw [splitWsAux] at hx
      simp only [hws, if_false] at hx
      exact ih (c :: acc) x hx

theorem splitTokens_mem_ne_nil {s : String} {t : String}
    (h : t ∈ splitTokens s) : t.data ≠ [] := by
  rw [splitTokens] at h
  obtain ⟨l, hl, hlt⟩ := List.mem_map.mp h
  subst hlt
  exact splitWsAux_mem_ne_nil s.data [] l hl

theorem joinSpaceChars_ne_nil (ls : List (List Char))
    (h1 : ls ≠ []) (h2 : ∀ l ∈ ls, l ≠ []) : joinSpaceChars ls ≠ [] := by
  cases ls with
  | nil => exact absurd rfl h1
  | cons l rest =>
    cases rest with
    | nil =>
      rw [joinSpaceChars]
      exact h2 l (List.mem_cons_self _ _)
    | cons l2 rest2 =>
      rw [joinSpaceChars]
      · intro hc
        have h := (List.append_eq_nil.mp hc).2
        simp at h
      · simp

theorem joinSpaces_ne_empty (ts : List String) (h1 : ts ≠ [])
    (h2 : ∀ t ∈ ts, t.data ≠ []) : (joinSpaces ts).data ≠ [] := by
  rw [joinSpaces]
  apply joinSpaceChars_ne_nil
  · simpa using h1
  · intro l hl
    obtain ⟨t, ht, hlt⟩ := List.mem_map.mp hl
    subst hlt
    exact h2 t ht

theorem keys_setField_present (l : Fields) (k : String) (v : JVal)
    (h : k ∈ l.map Prod.fst) :
    (setField l k v).map Prod.fst = l.map Prod.fst := by
  induction l with
  | nil => simp at h
  | cons kv rest ih =>
    obtain ⟨k0, v0⟩ := kv
    by_cases hk : k0 = k
    · simp [setField, hk]
    · have hmap : k ∈ k0 :: List.map Prod.fst rest := by simpa using h
      rcases List.mem_cons.mp hmap with hcase | hcase
      · exact absurd hcase.symm hk
      · simp [setField, hk, ih hcase]

theorem keys_applyFullName (p : LeadParams) :
    (applyFullName p (leadBaseBody p)).map Prod.fst = (leadBaseBody p).map Prod.fst := by
  rw [applyFullName]
  cases hfn : p.leadFullName <;> try rfl
  case str s =>
    by_cases hlen : 2 ≤ (splitTokens s).length
    · simp only [hlen, if_true]
      have hfn1 : ("first_name" : String) ∈ (leadBaseBody p).map Prod.fst := by
        simp [leadBaseBody]
      have hln1 : ("last_name" : String) ∈
          (setField (leadBaseBody p) "first_name"
            (JVal.str ((splitTokens s).headD ""))).map Prod.fst := by
        rw [keys_setField_present _ _ _ hfn1]
        simp [leadBaseBody]
      rw [keys_setField_present _ _ _ hln1, keys_setField_present _ _ _ hfn1]
    · simp only [hlen, if_false]

theorem lookup_applyCustom (p : LeadParams) (body : Fields) (k : String)
    (hk : k ≠ "custom_fields") :
    lookupField (applyCustomFields p body) k = lookupField body k := by
  rw [applyCustomFields]
  by_cases hcf : (p.customFields.filter (fun kv => !kv.1.data.isEmpty && jsTruthy kv.2)).isEmpty
  · rw [if_pos hcf]
  · rw [if_neg hcf]
    rw [lookupField_append]
    rw [show lookupField [("custom_fields",
      JVal.obj ((p.customFields.filter (fun kv => !kv.1.data.isEmpty && jsTruthy kv.2)).foldl
        (fun acc kv => setField acc kv.1 kv.2) []))] k = none by simp [lookupField, Ne.symm hk]]
    cases lookupField body k <;> rfl

theorem lookupField_filter_nodup (l : Fields) (q : String × JVal → Bool) (k : String)
    (hnd : (l.map Prod.fst).Nodup) :
    lookupField (l.filter q) k =
      match lookupField l k with
      | some v => if q (k, v) then some v else none
      | none => none := by
  induction l with
  | nil => simp [lookupField]
  | cons kv rest ih =>
    obtain ⟨k0, v0⟩ := kv
    simp at hnd
    obtain ⟨hk0, hrest⟩ := hnd
    by_cases hq : q (k0, v0)
    · rw [List.filter_cons_of_pos hq]
      by_cases hk : k0 = k
      · subst hk
        simp [lookupField, hq]
      · simp [lookupField, hk, ih hrest]
    · rw [List.filter_cons_of_neg hq]
      by_cases hk : k0 = k
      · subst hk
        have hnone : lookupField rest k0 = none := by
          cases hl : lookupField rest k0 with
          | none => rfl
          | some w =>
            exact absurd (List.mem_map_of_mem Prod.fst (mem_of_lookupField hl))
              (by simpa using hk0)
        rw [ih hrest, hnone]
        simp [lookupField, hq]
      · simp [lookupField, hk, ih hrest]

theorem nodup_keys_preFilterBody (p : LeadParams) :
    ((applyCustomFields p (applyFullName p (leadBaseBody p))).map Prod.fst).Nodup := by
  rw [applyCustomFields]
  by_cases hcf : (p.customFields.filter (fun kv => !kv.1.data.isEmpty && jsTruthy kv.2)).isEmpty
  · rw [if_pos hcf]
    rw [keys_applyFullName]
    simp [leadBaseBody]
  · rw [if_neg hcf]
    rw [List.map_append, keys_applyFullName]
    simp [leadBaseBody]

/-- Claim C10: `buildLeadPayload` overrides `first_name`/`last_name` from a
full name with at least two whitespace-separated tokens (first token, then
the remaining tokens joined by single spaces); with fewer than two tokens the
individual name parameters pass through unchanged (subject to the cleanup);
and every key holding `''`/`null`/`undefined` is removed from the final
body. -/
theorem leadspicker_C10 (p : LeadParams) :
    (2 ≤ (fullNameParts p).length →
      lookupField (buildLeadPayload p) "first_name" =
        some (.str ((fullNameParts p).headD "")) ∧
      lookupField (buildLeadPayload p) "last_name" =
        some (.str (joinSpaces (fullNameParts p).tail))) ∧
    ((fullNameParts p).length < 2 →
      lookupField (buildLeadPayload p) "first_name" =
        (if isRemovedValue p.leadFirstName then none else some p.leadFirstName) ∧
      lookupField (buildLeadPayload p) "last_name" =
        (if isRemovedValue p.leadLastName then none else some p.leadLastName)) ∧
    (∀ k v, lookupField (buildLeadPayload p) k = some v → isRemovedValue v = false) := by
  have hndpre := nodup_keys_preFilterBody p
  refine ⟨?_, ?_, ?_⟩
  · intro htok
    obtain ⟨s, hs⟩ : ∃ s, p.leadFullName = .str s := by
      cases hfn : p.leadFullName <;> simp [fullNameParts, hfn] at htok ⊢
    have hparts : fullNameParts p = splitTokens s := by
      simp [fullNameParts, hs]
    rw [hparts] at htok
    obtain ⟨t0, rest1, hsp⟩ : ∃ t0 rest1, splitTokens s = t0 :: rest1 := by
      cases hsp : splitTokens s with
      | nil => rw [hsp] at htok; simp at htok
      | cons a b => exact ⟨a, b, rfl⟩
    obtain ⟨t1, rest2, hrest1⟩ : ∃ t1 rest2, rest1 = t1 :: rest2 := by
      cases hr : rest1 with
      | nil => rw [hsp, hr] at htok; simp at htok
      | cons a b => exact ⟨a, b, rfl⟩
    have happ : applyFullName p (leadBaseBody p) =
        setField (setField (leadBaseBody p) "first_name" (.str ((splitTokens s).headD "")))
          "last_name" (.str (joinSpaces (splitTokens s).tail)) := by
      rw [applyFullName, hs]
      simp only [htok, if_true]
    have ht0 : t0.data ≠ [] := splitTokens_mem_ne_nil (by rw [hsp]; exact List.mem_cons_self _ _)
    have hjoin : (joinSpaces (splitTokens s).tail).data ≠ [] := by
      rw [hsp, hrest1]
      apply joinSpaces_ne_empty
      · simp
      · intro t ht
        exact splitTokens_mem_ne_nil (by
          rw [hsp, hrest1]
          exact List.mem_cons_of_mem _ ht)
    constructor
    · rw [buildLeadPayload, lookupField_filter_nodup _ _ _ hndpre,
        lookup_applyCustom p _ "first_name" (by decide), happ,
        lookupField_setField_ne _ _ _ _ (by decide), lookupField_setField_eq]
      rw [hparts]
      have hrm : isRemovedValue (.str ((splitTokens s).headD "")) = false := by
        rw [hsp]
        simp [isRemovedValue, List.isEmpty_iff]
        exact ht0
      simp only [hrm, Bool.not_false, if_true]
    · rw [buildLeadPayload, lookupField_filter_nodup _ _ _ hndpre,
        lookup_applyCustom p _ "last_name" (by decide), happ,
        lookupField_setField_eq]
      rw [hparts]
      have hrm : isRemovedValue (.str (joinSpaces (splitTokens s).tail)) = false := by
        simp [isRemovedValue, List.isEmpty_iff]
        exact hjoin
      simp only [hrm, Bool.not_false, if_true]
  · intro htok
    have happ : applyFullName p (leadBaseBody p) = leadBaseBody p := by
      rw [applyFullName]
      cases hfn : p.leadFullName <;> try rfl
      case str s =>
        have : ¬(2 ≤ (splitTokens s).length) := by
          simp [fullNameParts, hfn] at htok
          omega
        simp only [this, if_false]
    constructor
    · rw [buildLeadPayload, lookupField_filter_nodup _ _ _ hndpre,
        lookup_applyCustom p _ "first_name" (by decide), happ]
      rw [show lookupField (leadBaseBody p) "first_name" = some p.leadFirstName from rfl]
      cases hrm : isRemovedValue p.leadFirstName <;> simp [hrm]
    · rw [buildLeadPayload, lookupField_filter_nodup _ _ _ hndpre,
        lookup_applyCustom p _ "last_name" (by decide), happ]
      rw [show lookupField (leadBaseBody p) "last_name" = some p.leadLastName from rfl]
      cases hrm : isRemovedValue p.leadLastName <;> simp [hrm]
  · intro k v h
    rw [buildLeadPayload] at h
    have hm := mem_of_lookupField h
    have := List.of_mem_filter hm
    simpa using this

theorem leadspicker_C10_witness :
    lookupField (buildLeadPayload
      { leadCountry := .str "", leadEmail := .str "a@b.c",
        leadFirstName := .str "Original", leadLastName := .str "Name",
        leadPosition := .str "", leadCompanyName := .str "",
        leadCompanyWebsite := .str "", leadCompanyLinkedin := .str "",
        leadLinkedin := .str "", leadSalesNavigator := .str "",
        leadFullName := .str "Mary Ann Smith", customFields := [] }) "first_name" =
      some (.str "Mary") := by
  have h := (leadspicker_C10
    { leadCountry := .str "", leadEmail := .str "a@b.c",
      leadFirstName := .str "Original", leadLastName := .str "Name",
      leadPosition := .str "", leadCompanyName := .str "",
      leadCompanyWebsite := .str "", leadCompanyLinkedin := .str "",
      leadLinkedin := .str "", leadSalesNavigator := .str "",
      leadFullName := .str "Mary Ann Smith", customFields := [] }).1 (by decide)
  exact h.1.trans (by rfl)

end LeadspickerSpec
